import Mathlib

/-!
Shallow embedding of the OrbitCamera component (src/OrbitCamera.h).
Floats are modelled by real numbers; glm vector operations are spelled out
componentwise; std.pow on reals is modelled by Real.rpow.
-/

namespace OrbitCam

noncomputable section

/-- Three-component vector, modelling glm vec3. -/
@[ext]
structure Vec3 where
  x : ℝ
  y : ℝ
  z : ℝ

/-- Componentwise vector addition, modelling glm operator+. -/
def vadd (a b : Vec3) : Vec3 := ⟨a.x + b.x, a.y + b.y, a.z + b.z⟩

/-- Componentwise vector subtraction, modelling glm operator-. -/
def vsub (a b : Vec3) : Vec3 := ⟨a.x - b.x, a.y - b.y, a.z - b.z⟩

/-- Scalar multiple of a vector, modelling glm scalar * vec3. -/
def smul (s : ℝ) (v : Vec3) : Vec3 := ⟨s * v.x, s * v.y, s * v.z⟩

/-- Cross product, modelling glm cross. -/
def cross (a b : Vec3) : Vec3 :=
  ⟨a.y * b.z - a.z * b.y, a.z * b.x - a.x * b.z, a.x * b.y - a.y * b.x⟩

/-- Euclidean length, modelling glm length. -/
def norm3 (v : Vec3) : ℝ := Real.sqrt (v.x ^ 2 + v.y ^ 2 + v.z ^ 2)

/-- Unit vector in the direction of v, modelling glm normalize. -/
def normalize (v : Vec3) : Vec3 := smul (1 / norm3 v) v

/-- The zero vector. -/
def zero3 : Vec3 := ⟨0, 0, 0⟩

/-- Degrees to radians, modelling glm radians. -/
def radians (d : ℝ) : ℝ := d * (Real.pi / 180)

/-- Clamp v into the interval from lo to hi, modelling std.clamp. -/
def clamp (v lo hi : ℝ) : ℝ := if v < lo then lo else if hi < v then hi else v

/-- Camera state: the public data members of class OrbitCamera. -/
@[ext]
structure OrbitCamera where
  target : Vec3
  distance : ℝ
  yaw : ℝ
  pitch : ℝ
  orbitSpeed : ℝ
  panSpeed : ℝ
  zoomSpeed : ℝ

/-- The member initializers of OrbitCamera: target (0,0,0), distance 5,
yaw 45 degrees, pitch -25 degrees, orbitSpeed 0.01, panSpeed 0.002,
zoomSpeed 0.9. -/
def defaultCamera : OrbitCamera :=
  { target := ⟨0, 0, 0⟩
    distance := 5
    yaw := radians 45
    pitch := radians (-25)
    orbitSpeed := 0.01
    panSpeed := 0.002
    zoomSpeed := 0.9 }

/-- OrbitCamera.position: spherical offset from the target. -/
def position (c : OrbitCamera) : Vec3 :=
  let cp := Real.cos c.pitch
  vadd c.target
    ⟨c.distance * cp * Real.cos c.yaw,
     c.distance * Real.sin c.pitch,
     c.distance * cp * Real.sin c.yaw⟩

/-- The fixed world up vector (0,1,0) used by viewMatrix and pan. -/
def worldUp : Vec3 := ⟨0, 1, 0⟩

/-- Forward vector of the look-at frame: normalize(target - position()).
This is the local variable forward of OrbitCamera.pan and, equally, the
f vector of the glm lookAt basis built by OrbitCamera.viewMatrix. -/
def lookForward (c : OrbitCamera) : Vec3 := normalize (vsub c.target (position c))

/-- Right vector of the look-at frame: normalize(cross(forward, worldUp)).
Local variable right of OrbitCamera.pan and the s vector of glm lookAt. -/
def lookRight (c : OrbitCamera) : Vec3 := normalize (cross (lookForward c) worldUp)

/-- Unnormalized up vector of the frame: cross(right, forward), the argument
of the third normalize in OrbitCamera.pan and the u vector of glm lookAt. -/
def lookUpRaw (c : OrbitCamera) : Vec3 := cross (lookRight c) (lookForward c)

/-- The pitch clamp bound of OrbitCamera.orbit: radians(89). -/
def pitchLimit : ℝ := radians 89

/-- OrbitCamera.orbit: accumulate yaw and pitch, then clamp pitch. -/
def orbit (c : OrbitCamera) (dxPixels dyPixels : ℝ) : OrbitCamera :=
  let yaw1 := c.yaw + dxPixels * c.orbitSpeed
  let pitch1 := c.pitch + dyPixels * c.orbitSpeed
  { c with yaw := yaw1, pitch := clamp pitch1 (-pitchLimit) pitchLimit }

/-- OrbitCamera.zoom: multiply or divide distance by a power of zoomSpeed,
then clamp distance into the fixed interval from 0.5 to 100. -/
def zoom (c : OrbitCamera) (scrollY : ℝ) : OrbitCamera :=
  let d := if scrollY > 0 then c.distance * c.zoomSpeed ^ scrollY
           else c.distance / c.zoomSpeed ^ (-scrollY)
  { c with distance := clamp d 0.5 100 }

/-- OrbitCamera.pan: translate target along the camera right and up axes,
scaled by distance * panSpeed. -/
def pan (c : OrbitCamera) (dxPixels dyPixels : ℝ) : OrbitCamera :=
  let right := lookRight c
  let up := normalize (lookUpRaw c)
  let scale := c.distance * c.panSpeed
  let shift := vadd (smul (-dxPixels * scale) right) (smul (dyPixels * scale) up)
  { c with target := vadd c.target shift }

/-- The spherical offset that position() adds to the target, as a function
of distance, yaw and pitch only. -/
def camOffset (c : OrbitCamera) : Vec3 :=
  ⟨c.distance * Real.cos c.pitch * Real.cos c.yaw,
   c.distance * Real.sin c.pitch,
   c.distance * Real.cos c.pitch * Real.sin c.yaw⟩

/-- The displacement one pan call adds to the target. -/
def panShift (c : OrbitCamera) (dxPixels dyPixels : ℝ) : Vec3 :=
  vadd (smul (-dxPixels * (c.distance * c.panSpeed)) (lookRight c))
       (smul (dyPixels * (c.distance * c.panSpeed)) (normalize (lookUpRaw c)))

/-- A sample in-bounds camera state used to instantiate quantified results. -/
def camA : OrbitCamera :=
  { target := ⟨0, 0, 0⟩
    distance := 5
    yaw := 0
    pitch := 0
    orbitSpeed := 0.01
    panSpeed := 0.002
    zoomSpeed := 0.9 }

end

/-! Basic lemmas about clamp, the pitch limit and the record updates. -/

lemma clamp_mem {lo hi : ℝ} (h : lo ≤ hi) (v : ℝ) :
    lo ≤ clamp v lo hi ∧ clamp v lo hi ≤ hi := by
  unfold clamp
  split_ifs with h1 h2
  · exact ⟨le_rfl, h⟩
  · exact ⟨h, le_rfl⟩
  · push_neg at h1 h2
    exact ⟨h1, h2⟩

lemma clamp_eq_self {lo hi v : ℝ} (h1 : lo ≤ v) (h2 : v ≤ hi) : clamp v lo hi = v := by
  unfold clamp
  rw [if_neg (not_lt.mpr h1), if_neg (not_lt.mpr h2)]

lemma pitchLimit_pos : 0 < pitchLimit := by
  unfold pitchLimit radians
  positivity

lemma pitchLimit_lt_half_pi : pitchLimit < Real.pi / 2 := by
  unfold pitchLimit radians
  nlinarith [Real.pi_pos]

lemma orbit_yaw_eq (c : OrbitCamera) (dx dy : ℝ) :
    (orbit c dx dy).yaw = c.yaw + dx * c.orbitSpeed := rfl

lemma orbit_pitch_eq (c : OrbitCamera) (dx dy : ℝ) :
    (orbit c dx dy).pitch =
      clamp (c.pitch + dy * c.orbitSpeed) (-pitchLimit) pitchLimit := rfl

lemma orbit_rest_eq (c : OrbitCamera) (dx dy : ℝ) :
    (orbit c dx dy).target = c.target ∧ (orbit c dx dy).distance = c.distance ∧
    (orbit c dx dy).orbitSpeed = c.orbitSpeed ∧ (orbit c dx dy).panSpeed = c.panSpeed ∧
    (orbit c dx dy).zoomSpeed = c.zoomSpeed :=
  ⟨rfl, rfl, rfl, rfl, rfl⟩

lemma zoom_distance_eq (c : OrbitCamera) (s : ℝ) :
    (zoom c s).distance =
      clamp (if s > 0 then c.distance * c.zoomSpeed ^ s
             else c.distance / c.zoomSpeed ^ (-s)) 0.5 100 := rfl

lemma zoom_rest_eq (c : OrbitCamera) (s : ℝ) :
    (zoom c s).target = c.target ∧ (zoom c s).yaw = c.yaw ∧
    (zoom c s).pitch = c.pitch ∧ (zoom c s).orbitSpeed = c.orbitSpeed ∧
    (zoom c s).panSpeed = c.panSpeed ∧ (zoom c s).zoomSpeed = c.zoomSpeed :=
  ⟨rfl, rfl, rfl, rfl, rfl, rfl⟩

lemma pan_target_eq (c : OrbitCamera) (dx dy : ℝ) :
    (pan c dx dy).target = vadd c.target (panShift c dx dy) := rfl

lemma pan_rest_eq (c : OrbitCamera) (dx dy : ℝ) :
    (pan c dx dy).distance = c.distance ∧ (pan c dx dy).yaw = c.yaw ∧
    (pan c dx dy).pitch = c.pitch ∧ (pan c dx dy).orbitSpeed = c.orbitSpeed ∧
    (pan c dx dy).panSpeed = c.panSpeed ∧ (pan c dx dy).zoomSpeed = c.zoomSpeed :=
  ⟨rfl, rfl, rfl, rfl, rfl, rfl⟩

/-! Geometry of the spherical offset and of the pan and look-at frame. -/

lemma norm3_mk (a b d : ℝ) : norm3 ⟨a, b, d⟩ = Real.sqrt (a ^ 2 + b ^ 2 + d ^ 2) := rfl

lemma norm3_zero3 : norm3 zero3 = 0 := by
  unfold norm3 zero3
  simp

lemma vsub_position_target (c : OrbitCamera) :
    vsub (position c) c.target = camOffset c := by
  ext <;> simp [vsub, position, vadd, camOffset] <;> ring

lemma vsub_target_position (c : OrbitCamera) :
    vsub c.target (position c) = smul (-1) (camOffset c) := by
  ext <;> simp [vsub, position, vadd, camOffset, smul] <;> ring

lemma norm3_smul_neg_one (v : Vec3) : norm3 (smul (-1) v) = norm3 v := by
  unfold norm3 smul
  norm_num

lemma norm3_camOffset (c : OrbitCamera) (h : 0 ≤ c.distance) :
    norm3 (camOffset c) = c.distance := by
  unfold camOffset
  rw [norm3_mk]
  have h1 := Real.sin_sq_add_cos_sq c.yaw
  have h2 := Real.sin_sq_add_cos_sq c.pitch
  have hsum : (c.distance * Real.cos c.pitch * Real.cos c.yaw) ^ 2 +
      (c.distance * Real.sin c.pitch) ^ 2 +
      (c.distance * Real.cos c.pitch * Real.sin c.yaw) ^ 2 = c.distance ^ 2 := by
    linear_combination (c.distance * Real.cos c.pitch) ^ 2 * h1 + c.distance ^ 2 * h2
  rw [hsum, Real.sqrt_sq h]

lemma cos_pitch_pos {c : OrbitCamera} (hp1 : -pitchLimit ≤ c.pitch)
    (hp2 : c.pitch ≤ pitchLimit) : 0 < Real.cos c.pitch := by
  have hl := pitchLimit_lt_half_pi
  exact Real.cos_pos_of_mem_Ioo ⟨by linarith, by linarith⟩

lemma lookForward_eq (c : OrbitCamera) (hd : 0 < c.distance) :
    lookForward c = ⟨-(Real.cos c.pitch * Real.cos c.yaw), -(Real.sin c.pitch),
      -(Real.cos c.pitch * Real.sin c.yaw)⟩ := by
  unfold lookForward normalize
  rw [vsub_target_position, norm3_smul_neg_one, norm3_camOffset c hd.le]
  unfold camOffset smul
  ext <;> simp <;> field_simp <;> ring

lemma cross_lookForward_worldUp (c : OrbitCamera) (hd : 0 < c.distance) :
    cross (lookForward c) worldUp =
      ⟨Real.cos c.pitch * Real.sin c.yaw, 0, -(Real.cos c.pitch * Real.cos c.yaw)⟩ := by
  rw [lookForward_eq c hd]
  unfold cross worldUp
  ext <;> simp <;> ring

lemma norm3_cross_lookForward_worldUp (c : OrbitCamera) (hd : 0 < c.distance)
    (hcp : 0 ≤ Real.cos c.pitch) :
    norm3 (cross (lookForward c) worldUp) = Real.cos c.pitch := by
  rw [cross_lookForward_worldUp c hd, norm3_mk]
  have h1 := Real.sin_sq_add_cos_sq c.yaw
  have hsum : (Real.cos c.pitch * Real.sin c.yaw) ^ 2 + (0:ℝ) ^ 2 +
      (-(Real.cos c.pitch * Real.cos c.yaw)) ^ 2 = Real.cos c.pitch ^ 2 := by
    linear_combination Real.cos c.pitch ^ 2 * h1
  rw [hsum, Real.sqrt_sq hcp]

lemma lookRight_eq (c : OrbitCamera) (hd : 0 < c.distance)
    (hcp : 0 < Real.cos c.pitch) :
    lookRight c = ⟨Real.sin c.yaw, 0, -(Real.cos c.yaw)⟩ := by
  unfold lookRight normalize
  rw [norm3_cross_lookForward_worldUp c hd hcp.le, cross_lookForward_worldUp c hd]
  unfold smul
  ext <;> simp <;> field_simp <;> ring

lemma lookUpRaw_eq (c : OrbitCamera) (hd : 0 < c.distance)
    (hcp : 0 < Real.cos c.pitch) :
    lookUpRaw c = ⟨-(Real.sin c.pitch * Real.cos c.yaw), Real.cos c.pitch,
      -(Real.sin c.pitch * Real.sin c.yaw)⟩ := by
  unfold lookUpRaw
  rw [lookRight_eq c hd hcp, lookForward_eq c hd]
  unfold cross
  have h1 := Real.sin_sq_add_cos_sq c.yaw
  ext
  · simp
    ring
  · simp
    linear_combination Real.cos c.pitch * h1
  · simp
    ring

lemma norm3_lookUpRaw (c : OrbitCamera) (hd : 0 < c.distance)
    (hcp : 0 < Real.cos c.pitch) : norm3 (lookUpRaw c) = 1 := by
  rw [lookUpRaw_eq c hd hcp, norm3_mk]
  have h1 := Real.sin_sq_add_cos_sq c.yaw
  have h2 := Real.sin_sq_add_cos_sq c.pitch
  have hsum : (-(Real.sin c.pitch * Real.cos c.yaw)) ^ 2 + Real.cos c.pitch ^ 2 +
      (-(Real.sin c.pitch * Real.sin c.yaw)) ^ 2 = 1 := by
    linear_combination Real.sin c.pitch ^ 2 * h1 + h2
  rw [hsum, Real.sqrt_one]

lemma panShift_pan_invariant (c : OrbitCamera) (dx dy dx2 dy2 : ℝ) :
    panShift (pan c dx dy) dx2 dy2 = panShift c dx2 dy2 := by
  unfold panShift lookUpRaw lookRight lookForward
  rw [vsub_target_position, vsub_target_position]
  rfl

lemma panShift_neg (c : OrbitCamera) (dx dy : ℝ) :
    panShift c (-dx) (-dy) = smul (-1) (panShift c dx dy) := by
  unfold panShift
  ext <;> simp [vadd, smul] <;> ring

/-! The claims. -/

/-- C1: starting from any state whose distance lies in the default bounds 0.5
to 100 and whose pitch lies within the default limit of 89 degrees in radians,
after any orbit, zoom or pan call, for all real inputs, distance still lies in
those bounds and pitch still lies within the limit. -/
theorem orbit_zoom_pan_preserve_bounds (c : OrbitCamera)
    (hd1 : 0.5 ≤ c.distance) (hd2 : c.distance ≤ 100)
    (hp1 : -pitchLimit ≤ c.pitch) (hp2 : c.pitch ≤ pitchLimit) (dx dy ds : ℝ) :
    (0.5 ≤ (orbit c dx dy).distance ∧ (orbit c dx dy).distance ≤ 100 ∧
      -pitchLimit ≤ (orbit c dx dy).pitch ∧ (orbit c dx dy).pitch ≤ pitchLimit) ∧
    (0.5 ≤ (zoom c ds).distance ∧ (zoom c ds).distance ≤ 100 ∧
      -pitchLimit ≤ (zoom c ds).pitch ∧ (zoom c ds).pitch ≤ pitchLimit) ∧
    (0.5 ≤ (pan c dx dy).distance ∧ (pan c dx dy).distance ≤ 100 ∧
      -pitchLimit ≤ (pan c dx dy).pitch ∧ (pan c dx dy).pitch ≤ pitchLimit) := by
  have hL : -pitchLimit ≤ pitchLimit := by linarith [pitchLimit_pos]
  have ho := clamp_mem hL (c.pitch + dy * c.orbitSpeed)
  have hz := clamp_mem (show (0.5:ℝ) ≤ 100 by norm_num)
    (if ds > 0 then c.distance * c.zoomSpeed ^ ds else c.distance / c.zoomSpeed ^ (-ds))
  refine ⟨⟨?_, ?_, ?_, ?_⟩, ⟨?_, ?_, ?_, ?_⟩, ⟨?_, ?_, ?_, ?_⟩⟩
  · rw [(orbit_rest_eq c dx dy).2.1]; exact hd1
  · rw [(orbit_rest_eq c dx dy).2.1]; exact hd2
  · rw [orbit_pitch_eq]; exact ho.1
  · rw [orbit_pitch_eq]; exact ho.2
  · rw [zoom_distance_eq]; exact hz.1
  · rw [zoom_distance_eq]; exact hz.2
  · rw [(zoom_rest_eq c ds).2.2.1]; exact hp1
  · rw [(zoom_rest_eq c ds).2.2.1]; exact hp2
  · rw [(pan_rest_eq c dx dy).1]; exact hd1
  · rw [(pan_rest_eq c dx dy).1]; exact hd2
  · rw [(pan_rest_eq c dx dy).2.2.1]; exact hp1
  · rw [(pan_rest_eq c dx dy).2.2.1]; exact hp2

/-- Witness for C1 at the concrete in-bounds state camA. -/
theorem orbit_zoom_pan_preserve_bounds_witness :
    ((0.5:ℝ) ≤ camA.distance ∧ camA.distance ≤ 100 ∧
      -pitchLimit ≤ camA.pitch ∧ camA.pitch ≤ pitchLimit) ∧
    (0.5 ≤ (orbit camA 1 2).distance ∧ (orbit camA 1 2).distance ≤ 100 ∧
      -pitchLimit ≤ (orbit camA 1 2).pitch ∧ (orbit camA 1 2).pitch ≤ pitchLimit) ∧
    (0.5 ≤ (zoom camA 3).distance ∧ (zoom camA 3).distance ≤ 100 ∧
      -pitchLimit ≤ (zoom camA 3).pitch ∧ (zoom camA 3).pitch ≤ pitchLimit) ∧
    (0.5 ≤ (pan camA 1 2).distance ∧ (pan camA 1 2).distance ≤ 100 ∧
      -pitchLimit ≤ (pan camA 1 2).pitch ∧ (pan camA 1 2).pitch ≤ pitchLimit) := by
  have h1 : (0.5:ℝ) ≤ camA.distance := by norm_num [camA]
  have h2 : camA.distance ≤ 100 := by norm_num [camA]
  have h3 : -pitchLimit ≤ camA.pitch := by
    have := pitchLimit_pos
    simp only [camA]
    linarith
  have h4 : camA.pitch ≤ pitchLimit := by
    have := pitchLimit_pos
    simp only [camA]
    linarith
  have h := orbit_zoom_pan_preserve_bounds camA h1 h2 h3 h4 1 2 3
  exact ⟨⟨h1, h2, h3, h4⟩, h.1, h.2.1, h.2.2⟩

/-- C2: position() is a pure function of target, distance, yaw and pitch: it
returns target plus the spherical offset, and changing the three speed fields
does not change its value. -/
theorem position_pure_formula (c : OrbitCamera) (os ps zs : ℝ) :
    position c = vadd c.target
      ⟨c.distance * Real.cos c.pitch * Real.cos c.yaw,
       c.distance * Real.sin c.pitch,
       c.distance * Real.cos c.pitch * Real.sin c.yaw⟩ ∧
    position { c with orbitSpeed := os, panSpeed := ps, zoomSpeed := zs } =
      position c :=
  ⟨rfl, rfl⟩

/-- C4: zoom updates distance only: for positive scroll the distance is
multiplied by zoomSpeed to the scroll power, for negative scroll it is divided
by zoomSpeed to the negated scroll power, the result is always clamped into
0.5 to 100, every other field is unchanged, and zoom 0 from an in-bounds
distance is a no-op. -/
theorem zoom_distance_update (c : OrbitCamera) (s : ℝ) :
    (s > 0 → (zoom c s).distance = clamp (c.distance * c.zoomSpeed ^ s) 0.5 100) ∧
    (s < 0 → (zoom c s).distance = clamp (c.distance / c.zoomSpeed ^ (-s)) 0.5 100) ∧
    (s = 0 → 0.5 ≤ c.distance → c.distance ≤ 100 → zoom c s = c) ∧
    ((zoom c s).target = c.target ∧ (zoom c s).yaw = c.yaw ∧
     (zoom c s).pitch = c.pitch ∧ (zoom c s).orbitSpeed = c.orbitSpeed ∧
     (zoom c s).panSpeed = c.panSpeed ∧ (zoom c s).zoomSpeed = c.zoomSpeed) ∧
    (0.5 ≤ (zoom c s).distance ∧ (zoom c s).distance ≤ 100) := by
  have hz := clamp_mem (show (0.5:ℝ) ≤ 100 by norm_num)
    (if s > 0 then c.distance * c.zoomSpeed ^ s else c.distance / c.zoomSpeed ^ (-s))
  refine ⟨?_, ?_, ?_, zoom_rest_eq c s, ?_, ?_⟩
  · intro hs
    rw [zoom_distance_eq, if_pos hs]
  · intro hs
    rw [zoom_distance_eq, if_neg (by linarith)]
  · intro hs hd1 hd2
    subst hs
    have hdist : (zoom c 0).distance = c.distance := by
      rw [zoom_distance_eq, if_neg (by norm_num), neg_zero, Real.rpow_zero,
        div_one, clamp_eq_self hd1 hd2]
    have hr := zoom_rest_eq c 0
    exact OrbitCamera.ext hr.1 hdist hr.2.1 hr.2.2.1 hr.2.2.2.1 hr.2.2.2.2.1
      hr.2.2.2.2.2
  · rw [zoom_distance_eq]; exact hz.1
  · rw [zoom_distance_eq]; exact hz.2

/-- Witness for C4 at the concrete state camA with scroll values 2, -2 and 0. -/
theorem zoom_distance_update_witness :
    ((2:ℝ) > 0 ∧ (zoom camA 2).distance = clamp (camA.distance * camA.zoomSpeed ^ (2:ℝ)) 0.5 100) ∧
    ((-2:ℝ) < 0 ∧ (zoom camA (-2)).distance = clamp (camA.distance / camA.zoomSpeed ^ (-(-2):ℝ)) 0.5 100) ∧
    ((0:ℝ) = 0 ∧ 0.5 ≤ camA.distance ∧ camA.distance ≤ 100 ∧ zoom camA 0 = camA) := by
  have h1 : (0.5:ℝ) ≤ camA.distance := by norm_num [camA]
  have h2 : camA.distance ≤ 100 := by norm_num [camA]
  refine ⟨⟨by norm_num, (zoom_distance_update camA 2).1 (by norm_num)⟩,
    ⟨by norm_num, (zoom_distance_update camA (-2)).2.1 (by norm_num)⟩,
    ⟨rfl, h1, h2, (zoom_distance_update camA 0).2.2.1 rfl h1 h2⟩⟩

/-- C5: orbit adds dx times orbitSpeed to yaw with no clamping or wrapping,
sets pitch to the clamp of pitch plus dy times orbitSpeed into the limit,
the limit is strictly below 90 degrees, and no other field changes. -/
theorem orbit_yaw_pitch_update (c : OrbitCamera) (dx dy : ℝ) :
    (orbit c dx dy).yaw = c.yaw + dx * c.orbitSpeed ∧
    (orbit c dx dy).pitch =
      clamp (c.pitch + dy * c.orbitSpeed) (-pitchLimit) pitchLimit ∧
    pitchLimit < Real.pi / 2 ∧
    (orbit c dx dy).target = c.target ∧
    (orbit c dx dy).distance = c.distance ∧
    (orbit c dx dy).orbitSpeed = c.orbitSpeed ∧
    (orbit c dx dy).panSpeed = c.panSpeed ∧
    (orbit c dx dy).zoomSpeed = c.zoomSpeed :=
  ⟨rfl, rfl, pitchLimit_lt_half_pi, rfl, rfl, rfl, rfl, rfl⟩

/-- C3: for every state with nonnegative distance, so in particular for every
state satisfying the documented invariant, the Euclidean norm of position()
minus target equals distance exactly: the camera sits on the sphere of radius
distance around the target for all yaw and pitch. -/
theorem position_on_sphere (c : OrbitCamera) (h : 0 ≤ c.distance) :
    norm3 (vsub (position c) c.target) = c.distance := by
  rw [vsub_position_target, norm3_camOffset c h]

/-- Witness for C3 at the concrete state camA. -/
theorem position_on_sphere_witness :
    (0:ℝ) ≤ camA.distance ∧ norm3 (vsub (position camA) camA.target) = camA.distance := by
  have h : (0:ℝ) ≤ camA.distance := by norm_num [camA]
  exact ⟨h, position_on_sphere camA h⟩

/-- C6: under the documented invariants every operation is total: the argument
of the forward normalization in pan, which is target minus position(), is a
nonzero vector of nonzero length, the cross product of the normalized forward
vector with the world up vector is nonzero with nonzero length, and the third
basis vector cross(right, forward) shared by pan and the glm lookAt basis of
viewMatrix() is nonzero with nonzero length, so every division is by a nonzero
length and the look-at basis is never degenerate. -/
theorem pan_view_basis_nondegenerate (c : OrbitCamera)
    (hd1 : 0.5 ≤ c.distance) (hd2 : c.distance ≤ 100)
    (hp1 : -pitchLimit ≤ c.pitch) (hp2 : c.pitch ≤ pitchLimit) :
    vsub c.target (position c) ≠ zero3 ∧
    norm3 (vsub c.target (position c)) ≠ 0 ∧
    cross (lookForward c) worldUp ≠ zero3 ∧
    norm3 (cross (lookForward c) worldUp) ≠ 0 ∧
    lookUpRaw c ≠ zero3 ∧
    norm3 (lookUpRaw c) ≠ 0 := by
  have hd : 0 < c.distance := by linarith
  have hcp := cos_pitch_pos hp1 hp2
  have n1 : norm3 (vsub c.target (position c)) = c.distance := by
    rw [vsub_target_position, norm3_smul_neg_one, norm3_camOffset c hd.le]
  have n2 : norm3 (cross (lookForward c) worldUp) = Real.cos c.pitch :=
    norm3_cross_lookForward_worldUp c hd hcp.le
  have n3 : norm3 (lookUpRaw c) = 1 := norm3_lookUpRaw c hd hcp
  have hn1 : norm3 (vsub c.target (position c)) ≠ 0 := by
    rw [n1]; exact ne_of_gt hd
  have hn2 : norm3 (cross (lookForward c) worldUp) ≠ 0 := by
    rw [n2]; exact ne_of_gt hcp
  have hn3 : norm3 (lookUpRaw c) ≠ 0 := by
    rw [n3]; exact one_ne_zero
  refine ⟨?_, hn1, ?_, hn2, ?_, hn3⟩
  · intro h; exact hn1 (by rw [h, norm3_zero3])
  · intro h; exact hn2 (by rw [h, norm3_zero3])
  · intro h; exact hn3 (by rw [h, norm3_zero3])

/-- Witness for C6 at the concrete state camA. -/
theorem pan_view_basis_nondegenerate_witness :
    ((0.5:ℝ) ≤ camA.distance ∧ camA.distance ≤ 100 ∧
      -pitchLimit ≤ camA.pitch ∧ camA.pitch ≤ pitchLimit) ∧
    vsub camA.target (position camA) ≠ zero3 ∧
    norm3 (cross (lookForward camA) worldUp) ≠ 0 := by
  have h1 : (0.5:ℝ) ≤ camA.distance := by norm_num [camA]
  have h2 : camA.distance ≤ 100 := by norm_num [camA]
  have h3 : -pitchLimit ≤ camA.pitch := by
    have := pitchLimit_pos
    simp only [camA]
    linarith
  have h4 : camA.pitch ≤ pitchLimit := by
    have := pitchLimit_pos
    simp only [camA]
    linarith
  have h := pan_view_basis_nondegenerate camA h1 h2 h3 h4
  exact ⟨⟨h1, h2, h3, h4⟩, h.1, h.2.2.2.1⟩

/-- C7: for every state satisfying the documented invariants and all real
deltas, pan with some deltas followed by pan with the negated deltas restores
the whole state, and in particular the target, exactly: both calls use the
same right and up frame vectors and the same scale, because pan changes only
the target, which cancels out of the frame computation. -/
theorem pan_pan_inverse (c : OrbitCamera)
    (hd1 : 0.5 ≤ c.distance) (hd2 : c.distance ≤ 100)
    (hp1 : -pitchLimit ≤ c.pitch) (hp2 : c.pitch ≤ pitchLimit) (dx dy : ℝ) :
    pan (pan c dx dy) (-dx) (-dy) = c := by
  have htar : (pan (pan c dx dy) (-dx) (-dy)).target = c.target := by
    rw [pan_target_eq, pan_target_eq, panShift_pan_invariant, panShift_neg]
    ext <;> simp [vadd, smul] <;> ring
  have hr2 := pan_rest_eq (pan c dx dy) (-dx) (-dy)
  have hr1 := pan_rest_eq c dx dy
  exact OrbitCamera.ext htar (hr2.1.trans hr1.1) (hr2.2.1.trans hr1.2.1)
    (hr2.2.2.1.trans hr1.2.2.1) (hr2.2.2.2.1.trans hr1.2.2.2.1)
    (hr2.2.2.2.2.1.trans hr1.2.2.2.2.1) (hr2.2.2.2.2.2.trans hr1.2.2.2.2.2)

/-- Witness for C7 at the concrete state camA with deltas 3 and 4. -/
theorem pan_pan_inverse_witness :
    ((0.5:ℝ) ≤ camA.distance ∧ camA.distance ≤ 100 ∧
      -pitchLimit ≤ camA.pitch ∧ camA.pitch ≤ pitchLimit) ∧
    pan (pan camA 3 4) (-3) (-4) = camA := by
  have h1 : (0.5:ℝ) ≤ camA.distance := by norm_num [camA]
  have h2 : camA.distance ≤ 100 := by norm_num [camA]
  have h3 : -pitchLimit ≤ camA.pitch := by
    have := pitchLimit_pos
    simp only [camA]
    linarith
  have h4 : camA.pitch ≤ pitchLimit := by
    have := pitchLimit_pos
    simp only [camA]
    linarith
  exact ⟨⟨h1, h2, h3, h4⟩, pan_pan_inverse camA h1 h2 h3 h4 3 4⟩

/-- C8: for every state satisfying the documented invariants, orbit with zero
deltas and pan with zero deltas leave every field of the camera unchanged. -/
theorem orbit_pan_zero_noop (c : OrbitCamera)
    (hd1 : 0.5 ≤ c.distance) (hd2 : c.distance ≤ 100)
    (hp1 : -pitchLimit ≤ c.pitch) (hp2 : c.pitch ≤ pitchLimit) :
    orbit c 0 0 = c ∧ pan c 0 0 = c := by
  constructor
  · have hyaw : (orbit c 0 0).yaw = c.yaw := by
      rw [orbit_yaw_eq]; ring
    have hpitch : (orbit c 0 0).pitch = c.pitch := by
      rw [orbit_pitch_eq, zero_mul, add_zero]
      exact clamp_eq_self hp1 hp2
    have hr := orbit_rest_eq c 0 0
    exact OrbitCamera.ext hr.1 hr.2.1 hyaw hpitch hr.2.2.1 hr.2.2.2.1 hr.2.2.2.2
  · have htar : (pan c 0 0).target = c.target := by
      rw [pan_target_eq]
      unfold panShift
      ext <;> simp [vadd, smul]
    have hr := pan_rest_eq c 0 0
    exact OrbitCamera.ext htar hr.1 hr.2.1 hr.2.2.1 hr.2.2.2.1 hr.2.2.2.2.1
      hr.2.2.2.2.2

/-- Witness for C8 at the concrete state camA. -/
theorem orbit_pan_zero_noop_witness :
    ((0.5:ℝ) ≤ camA.distance ∧ camA.distance ≤ 100 ∧
      -pitchLimit ≤ camA.pitch ∧ camA.pitch ≤ pitchLimit) ∧
    orbit camA 0 0 = camA ∧ pan camA 0 0 = camA := by
  have h1 : (0.5:ℝ) ≤ camA.distance := by norm_num [camA]
  have h2 : camA.distance ≤ 100 := by norm_num [camA]
  have h3 : -pitchLimit ≤ camA.pitch := by
    have := pitchLimit_pos
    simp only [camA]
    linarith
  have h4 : camA.pitch ≤ pitchLimit := by
    have := pitchLimit_pos
    simp only [camA]
    linarith
  exact ⟨⟨h1, h2, h3, h4⟩, orbit_pan_zero_noop camA h1 h2 h3 h4⟩

/-- C10: the clamps are unconditional: from any starting state, even one whose
fields violate the documented bounds, one orbit call leaves pitch within plus
or minus 89 degrees in radians and one zoom call leaves distance within the
fixed constants 0.5 and 100; in particular zoom 0 from distance 200 yields
distance 100, so zoom 0 is not a no-op outside the bounds. -/
theorem clamps_unconditional (c : OrbitCamera) (dx dy ds : ℝ) :
    (-(radians 89) ≤ (orbit c dx dy).pitch ∧ (orbit c dx dy).pitch ≤ radians 89) ∧
    ((0.5:ℝ) ≤ (zoom c ds).distance ∧ (zoom c ds).distance ≤ 100) ∧
    ({ defaultCamera with distance := 200 } : OrbitCamera).distance = 200 ∧
    (zoom { defaultCamera with distance := 200 } 0).distance = 100 := by
  have hL : -pitchLimit ≤ pitchLimit := by linarith [pitchLimit_pos]
  have ho := clamp_mem hL (c.pitch + dy * c.orbitSpeed)
  have hz := clamp_mem (show (0.5:ℝ) ≤ 100 by norm_num)
    (if ds > 0 then c.distance * c.zoomSpeed ^ ds else c.distance / c.zoomSpeed ^ (-ds))
  have hpl : pitchLimit = radians 89 := rfl
  refine ⟨⟨?_, ?_⟩, ⟨?_, ?_⟩, rfl, ?_⟩
  · rw [orbit_pitch_eq, ← hpl]; exact ho.1
  · rw [orbit_pitch_eq, ← hpl]; exact ho.2
  · rw [zoom_distance_eq]; exact hz.1
  · rw [zoom_distance_eq]; exact hz.2
  · rw [zoom_distance_eq, if_neg (by norm_num), neg_zero, Real.rpow_zero, div_one]
    show clamp 200 0.5 100 = 100
    unfold clamp
    norm_num

/-! Interval bounds for the trigonometric constants of the default state,
derived from the quartic Taylor bounds at the half angle 12.5 degrees. -/

lemma theta_bounds : (0.2181661:ℝ) ≤ 5 * Real.pi / 72 ∧ 5 * Real.pi / 72 ≤ 0.2181662 :=
  ⟨by linarith [Real.pi_gt_d6], by linarith [Real.pi_lt_d6]⟩

lemma abs_theta_le_one : |5 * Real.pi / 72| ≤ 1 := by
  rw [abs_of_nonneg (by positivity)]
  linarith [Real.pi_lt_d6]

lemma sin_theta_bounds :
    (0.216317:ℝ) ≤ Real.sin (5 * Real.pi / 72) ∧
    Real.sin (5 * Real.pi / 72) ≤ 0.216555 := by
  have hb := Real.sin_bound abs_theta_le_one
  rw [abs_of_nonneg (by positivity : (0:ℝ) ≤ 5 * Real.pi / 72), abs_le] at hb
  obtain ⟨hbl, hbr⟩ := hb
  have h1 := theta_bounds.1
  have h2 := theta_bounds.2
  have hx0 : (0:ℝ) ≤ 5 * Real.pi / 72 := by positivity
  have h3u : (5 * Real.pi / 72) ^ 3 ≤ (0.2181662:ℝ) ^ 3 := pow_le_pow_left₀ hx0 h2 3
  have h3l : (0.2181661:ℝ) ^ 3 ≤ (5 * Real.pi / 72) ^ 3 :=
    pow_le_pow_left₀ (by norm_num) h1 3
  have h4u : (5 * Real.pi / 72) ^ 4 ≤ (0.2181662:ℝ) ^ 4 := pow_le_pow_left₀ hx0 h2 4
  have h4l : (0:ℝ) ≤ (5 * Real.pi / 72) ^ 4 := by positivity
  constructor
  · nlinarith
  · nlinarith

lemma cos_theta_bounds :
    (0.976083:ℝ) ≤ Real.cos (5 * Real.pi / 72) ∧
    Real.cos (5 * Real.pi / 72) ≤ 0.976320 := by
  have hb := Real.cos_bound abs_theta_le_one
  rw [abs_of_nonneg (by positivity : (0:ℝ) ≤ 5 * Real.pi / 72), abs_le] at hb
  obtain ⟨hbl, hbr⟩ := hb
  have h1 := theta_bounds.1
  have h2 := theta_bounds.2
  have hx0 : (0:ℝ) ≤ 5 * Real.pi / 72 := by positivity
  have h2u : (5 * Real.pi / 72) ^ 2 ≤ (0.2181662:ℝ) ^ 2 := pow_le_pow_left₀ hx0 h2 2
  have h2l : (0.2181661:ℝ) ^ 2 ≤ (5 * Real.pi / 72) ^ 2 :=
    pow_le_pow_left₀ (by norm_num) h1 2
  have h4u : (5 * Real.pi / 72) ^ 4 ≤ (0.2181662:ℝ) ^ 4 := pow_le_pow_left₀ hx0 h2 4
  have h4l : (0:ℝ) ≤ (5 * Real.pi / 72) ^ 4 := by positivity
  constructor
  · nlinarith
  · nlinarith

lemma cos_5pi36_bounds :
    (0.906207:ℝ) ≤ Real.cos (5 * Real.pi / 36) ∧
    Real.cos (5 * Real.pi / 36) ≤ 0.906415 := by
  have hrw : (5:ℝ) * Real.pi / 36 = 2 * (5 * Real.pi / 72) := by ring
  have hcos : Real.cos (2 * (5 * Real.pi / 72)) =
      1 - 2 * Real.sin (5 * Real.pi / 72) ^ 2 := by
    rw [Real.cos_two_mul]
    linear_combination 2 * Real.sin_sq_add_cos_sq (5 * Real.pi / 72)
  have hs := sin_theta_bounds
  rw [hrw, hcos]
  constructor <;> nlinarith [hs.1, hs.2]

lemma sin_5pi36_bounds :
    (0.422285:ℝ) ≤ Real.sin (5 * Real.pi / 36) ∧
    Real.sin (5 * Real.pi / 36) ≤ 0.422861 := by
  have hrw : (5:ℝ) * Real.pi / 36 = 2 * (5 * Real.pi / 72) := by ring
  rw [hrw, Real.sin_two_mul]
  have hs := sin_theta_bounds
  have hc := cos_theta_bounds
  constructor <;> nlinarith [hs.1, hs.2, hc.1, hc.2]

lemma sqrt_two_bounds : (1.414213:ℝ) ≤ Real.sqrt 2 ∧ Real.sqrt 2 ≤ 1.414214 := by
  have h := Real.sq_sqrt (by norm_num : (0:ℝ) ≤ 2)
  have h0 := Real.sqrt_nonneg 2
  constructor <;> nlinarith

lemma position_defaultCamera_eq : position defaultCamera =
    ⟨5 * Real.cos (5 * Real.pi / 36) * (Real.sqrt 2 / 2),
     -(5 * Real.sin (5 * Real.pi / 36)),
     5 * Real.cos (5 * Real.pi / 36) * (Real.sqrt 2 / 2)⟩ := by
  have hyc : Real.cos (radians 45) = Real.sqrt 2 / 2 := by
    unfold radians
    rw [show (45:ℝ) * (Real.pi / 180) = Real.pi / 4 by ring, Real.cos_pi_div_four]
  have hys : Real.sin (radians 45) = Real.sqrt 2 / 2 := by
    unfold radians
    rw [show (45:ℝ) * (Real.pi / 180) = Real.pi / 4 by ring, Real.sin_pi_div_four]
  have hpc : Real.cos (radians (-25)) = Real.cos (5 * Real.pi / 36) := by
    unfold radians
    rw [show (-25:ℝ) * (Real.pi / 180) = -(5 * Real.pi / 36) by ring, Real.cos_neg]
  have hps : Real.sin (radians (-25)) = -Real.sin (5 * Real.pi / 36) := by
    unfold radians
    rw [show (-25:ℝ) * (Real.pi / 180) = -(5 * Real.pi / 36) by ring, Real.sin_neg]
  simp only [position, defaultCamera, vadd]
  ext
  · simp only
    rw [hpc, hyc]
    ring
  · simp only
    rw [hps]
    ring
  · simp only
    rw [hpc, hys]
    ring

lemma position_default_x_bounds :
    (3.2039:ℝ) ≤ (position defaultCamera).x ∧ (position defaultCamera).x ≤ 3.2047 := by
  rw [position_defaultCamera_eq]
  show (3.2039:ℝ) ≤ 5 * Real.cos (5 * Real.pi / 36) * (Real.sqrt 2 / 2) ∧
    5 * Real.cos (5 * Real.pi / 36) * (Real.sqrt 2 / 2) ≤ 3.2047
  have hc := cos_5pi36_bounds
  have hs2 := sqrt_two_bounds
  constructor <;> nlinarith [hc.1, hc.2, hs2.1, hs2.2]

lemma position_default_y_bounds :
    (-2.11431:ℝ) ≤ (position defaultCamera).y ∧
    (position defaultCamera).y ≤ -2.11142 := by
  rw [position_defaultCamera_eq]
  show (-2.11431:ℝ) ≤ -(5 * Real.sin (5 * Real.pi / 36)) ∧
    -(5 * Real.sin (5 * Real.pi / 36)) ≤ -2.11142
  have hs := sin_5pi36_bounds
  constructor <;> linarith [hs.1, hs.2]

/-- C9 counterexample: at the default state, which is exactly the scenario
state with target (0,0,0), distance 5, yaw 45 degrees and pitch -25 degrees,
the x component of position() differs from the claimed 3.2083 by more than
0.002, so the claimed approximate value is wrong at its printed precision. -/
theorem position_default_scenario_counterexample :
    ¬ |(position defaultCamera).x - 3.2083| ≤ 0.002 := by
  have hx := position_default_x_bounds
  rw [not_le, lt_abs]
  right
  linarith [hx.2]

/-- C9 amended: at the default state, which is the scenario state, position()
is approximately (3.2043, -2.1131, 3.2043): the x and y components are within
0.002 of those values and the z component equals the x component exactly. -/
theorem position_default_scenario_amended :
    |(position defaultCamera).x - 3.2043| < 0.002 ∧
    |(position defaultCamera).y - (-2.1131)| < 0.002 ∧
    (position defaultCamera).z = (position defaultCamera).x ∧
    |(position defaultCamera).z - 3.2043| < 0.002 := by
  have hx := position_default_x_bounds
  have hy := position_default_y_bounds
  have hz : (position defaultCamera).z = (position defaultCamera).x := by
    rw [position_defaultCamera_eq]
  refine ⟨?_, ?_, hz, ?_⟩
  · rw [abs_lt]
    constructor <;> linarith [hx.1, hx.2]
  · rw [abs_lt]
    constructor <;> linarith [hy.1, hy.2]
  · rw [hz, abs_lt]
    constructor <;> linarith [hx.1, hx.2]

end OrbitCam
